import Mathlib

/-!
Shallow embedding of `src/HW2-split_upload_4gb.go`, a command-line pipeline that
splits a file into fixed-size fragments, uploads each fragment to a
content-addressed store, re-downloads the fragments, concatenates them and
compares MD5 digests.

Modelling conventions:
* file contents are `List Nat` (one entry per byte);
* the external storage client (`uploadSingleFragment`, the download command) is
  an opaque parameter: `up : Nat → Bytes → Except String String` returns the
  root (ContentID) for a fragment or an error, and
  `get : String → Except String (Option Bytes)` models one download attempt —
  `Except.error` is a failed download command, `Except.ok none` is a download
  whose temporary file could not be read back (the Go code discards that read
  error), `Except.ok (some bs)` delivers the bytes `bs`;
* side effects on the temporary directory and on the `.restored` output file
  are made explicit as returned values.
-/

set_option linter.unusedVariables false
set_option maxRecDepth 40000

/-- File contents: a list of byte values. The algorithms never depend on the
bytes being < 256, so no bound is carried. -/
abbrev Bytes := List Nat

/-- Chunking loop of `splitFile`, structurally recursive on a fuel bound on
the number of `f.Read` iterations (each iteration with a non-empty source and
a positive chunk size consumes at least one byte, so `S.length + 1` rounds
always suffice; `splitFileGo_fuel` proves the result is fuel-insensitive). -/
def splitFileGo : Nat → Bytes → Nat → List Bytes
  | 0, _, _ => []
  | fuel + 1, S, F =>
    if S = [] ∨ F = 0 then []
    else S.take F :: splitFileGo fuel (S.drop F) F

/-- Pure denotation of `splitFile` (Go lines 113-150) on a regular file:
each `f.Read(buf)` on a regular file delivers `min chunkSize remaining` bytes,
so the fragments are successive `chunkSize`-byte slices of the source.
With `chunkSize = 0` the first read returns `(0, nil)` and the loop breaks
with no fragments, which the `S = [] ∨ F = 0` branch reproduces. -/
def splitFile (S : Bytes) (F : Nat) : List Bytes :=
  splitFileGo (S.length + 1) S F

/-- Outcome of one `f.Read(buf)` call in `splitFile` (Go line 125):
`ok` is `err == nil`, `eof` is `err.Error() == "EOF"`, `fail msg` is any
other error. -/
inductive ReadErr : Type where
  | ok
  | eof
  | fail (msg : String)
  deriving DecidableEq

/-- One `f.Read(buf)` result: the bytes delivered (`n` of them) and the error
value returned alongside them. -/
structure ReadStep where
  data : Bytes
  rerr : ReadErr
  deriving DecidableEq

/-- Read-level model of the `splitFile` loop (Go lines 124-148), driven by the
list of successive `f.Read` results. The first component is the list of
fragment files present in the destination directory when the loop exits (in
index order), the second is the error `splitFile` returns (`none` = success).
Creation and writing of the fragment files themselves (lines 134-142) are
modelled as succeeding; only source-read errors are in scope. -/
def splitLoop : List ReadStep → List Bytes → List Bytes × Option String
  | [], written => (written, none)
  | r :: rest, written =>
    if r.data.length = 0 then
      match r.rerr with
      | ReadErr.fail m => (written, some m)
      | _ => (written, none)
    else
      match r.rerr with
      | ReadErr.eof => (written ++ [r.data], none)
      | _ => splitLoop rest (written ++ [r.data])

/-- The sequence of `f.Read` results a regular file with contents `S` produces
under buffer size `F`: every fragment-sized slice with a nil error, then a
final `(0, EOF)` read. -/
def canonReads (S : Bytes) (F : Nat) : List ReadStep :=
  (splitFile S F).map (fun d => ReadStep.mk d ReadErr.ok) ++ [ReadStep.mk [] ReadErr.eof]

/-- Model of the upload loop of `run` (Go lines 74-90): fragments are uploaded
in index order; `roots` accumulates the returned ContentIDs; the first failed
upload stops the loop. Returns the state of `roots` at loop exit and, on
failure, the 0-based index of the failing fragment with the underlying error
(`run` formats the message with the 1-based index `i+1`). -/
def uploadLoop (up : Nat → Bytes → Except String String) :
    Nat → List String → List Bytes → List String × Option (Nat × String)
  | _, roots, [] => (roots, none)
  | i, roots, frag :: rest =>
    match up i frag with
    | Except.ok root => uploadLoop up (i + 1) (roots ++ [root]) rest
    | Except.error e => (roots, some (i, e))

/-- Model of the loop body of `downloadAndMerge` (Go lines 226-255): for each
root, run the download command; on command failure return the wrapped error;
otherwise read the temporary file back — `data, _ := os.ReadFile(tmpPath)`
discards the read error, so a failed read-back (`Except.ok none`) appends
zero bytes — and append to the output file. The first component is the
content of the output file at exit. -/
def downloadLoop (get : String → Except String (Option Bytes)) :
    List String → Bytes → Bytes × Option String
  | [], out => (out, none)
  | root :: rest, out =>
    match get root with
    | Except.error e => (out, some ("下载 root " ++ root ++ " 失败: " ++ e))
    | Except.ok data => downloadLoop get rest (out ++ data.getD [])

/-- Model of `downloadAndMerge` (Go lines 219-257): the output file starts
empty (`os.Create`) and the loop appends each fragment's bytes. Creation and
writes of the output file are modelled as succeeding. -/
def downloadAndMerge (get : String → Except String (Option Bytes))
    (roots : List String) : Bytes × Option String :=
  downloadLoop get roots []

/-- Left rotation of a 32-bit word (operand already reduced mod 2^32). -/
def rotl32 (x s : Nat) : Nat := ((x <<< s) ||| (x >>> (32 - s))) % 4294967296

/-- The 64 MD5 round constants `T[i] = floor(2^32 * abs(sin(i+1)))`. -/
def md5K : List Nat :=
  [0xd76aa478, 0xe8c7b756, 0x242070db, 0xc1bdceee,
   0xf57c0faf, 0x4787c62a, 0xa8304613, 0xfd469501,
   0x698098d8, 0x8b44f7af, 0xffff5bb1, 0x895cd7be,
   0x6b901122, 0xfd987193, 0xa679438e, 0x49b40821,
   0xf61e2562, 0xc040b340, 0x265e5a51, 0xe9b6c7aa,
   0xd62f105d, 0x02441453, 0xd8a1e681, 0xe7d3fbc8,
   0x21e1cde6, 0xc33707d6, 0xf4d50d87, 0x455a14ed,
   0xa9e3e905, 0xfcefa3f8, 0x676f02d9, 0x8d2a4c8a,
   0xfffa3942, 0x8771f681, 0x6d9d6122, 0xfde5380c,
   0xa4beea44, 0x4bdecfa9, 0xf6bb4b60, 0xbebfbc70,
   0x289b7ec6, 0xeaa127fa, 0xd4ef3085, 0x04881d05,
   0xd9d4d039, 0xe6db99e5, 0x1fa27cf8, 0xc4ac5665,
   0xf4292244, 0x432aff97, 0xab9423a7, 0xfc93a039,
   0x655b59c3, 0x8f0ccc92, 0xffeff47d, 0x85845dd1,
   0x6fa87e4f, 0xfe2ce6e0, 0xa3014314, 0x4e0811a1,
   0xf7537e82, 0xbd3af235, 0x2ad7d2bb, 0xeb86d391]

/-- The 64 MD5 per-round left-rotation amounts. -/
def md5S : List Nat :=
  [7, 12, 17, 22, 7, 12, 17, 22, 7, 12, 17, 22, 7, 12, 17, 22,
   5, 9, 14, 20, 5, 9, 14, 20, 5, 9, 14, 20, 5, 9, 14, 20,
   4, 11, 16, 23, 4, 11, 16, 23, 4, 11, 16, 23, 4, 11, 16, 23,
   6, 10, 15, 21, 6, 10, 15, 21, 6, 10, 15, 21, 6, 10, 15, 21]

/-- The MD5 nonlinear mixing function for step `i` of a block. -/
def md5Mix (i b c d : Nat) : Nat :=
  if i < 16 then (b &&& c) ||| ((0xffffffff ^^^ b) &&& d)
  else if i < 32 then (d &&& b) ||| ((0xffffffff ^^^ d) &&& c)
  else if i < 48 then b ^^^ c ^^^ d
  else c ^^^ (b ||| (0xffffffff ^^^ d))

/-- The MD5 message-word schedule: which of the 16 block words step `i` uses. -/
def md5Idx (i : Nat) : Nat :=
  if i < 16 then i
  else if i < 32 then (5 * i + 1) % 16
  else if i < 48 then (3 * i + 5) % 16
  else (7 * i) % 16

/-- One of the 64 MD5 steps on the running state `(a, b, c, d)`. -/
def md5Step (m : Nat → Nat) (st : Nat × Nat × Nat × Nat) (i : Nat) :
    Nat × Nat × Nat × Nat :=
  let x := (st.1 + md5Mix i st.2.1 st.2.2.1 st.2.2.2 + md5K.getD i 0
            + m (md5Idx i)) % 4294967296
  (st.2.2.2, (st.2.1 + rotl32 x (md5S.getD i 0)) % 4294967296, st.2.1, st.2.2.1)

/-- Process one 512-bit block (given as its 16 little-endian words) and add
the result into the chaining state. -/
def md5Block (st : Nat × Nat × Nat × Nat) (block : List Nat) :
    Nat × Nat × Nat × Nat :=
  let r := (List.range 64).foldl (md5Step (fun g => block.getD g 0)) st
  ((st.1 + r.1) % 4294967296, (st.2.1 + r.2.1) % 4294967296,
   (st.2.2.1 + r.2.2.1) % 4294967296, (st.2.2.2 + r.2.2.2) % 4294967296)

/-- Little-endian byte decomposition: `k` bytes of the value `v`. -/
def leBytes : Nat → Nat → List Nat
  | 0, _ => []
  | k + 1, v => v % 256 :: leBytes k (v / 256)

/-- Group a byte list into 32-bit little-endian words (trailing bytes that do
not fill a word are dropped; MD5 only applies this to 64-byte blocks). -/
def toWordsLE : List Nat → List Nat
  | b0 :: b1 :: b2 :: b3 :: rest =>
    (b0 + 256 * b1 + 65536 * b2 + 16777216 * b3) :: toWordsLE rest
  | _ => []

/-- MD5 padding: a 0x80 byte, zeros to 56 mod 64, then the 64-bit
little-endian bit length. -/
def md5Pad (msg : Bytes) : Bytes :=
  msg ++ 128 :: List.replicate ((120 - (msg.length + 1) % 64) % 64) 0
      ++ leBytes 8 ((msg.length * 8) % 18446744073709551616)

/-- Lowercase hex digit for a value < 16. -/
def hexChar (n : Nat) : Char := if n < 10 then Char.ofNat (48 + n) else Char.ofNat (87 + n)

/-- Two lowercase hex digits for a byte. -/
def byteHex (b : Nat) : String := String.mk [hexChar (b / 16), hexChar (b % 16)]

/-- Hex rendering of a 32-bit word, least significant byte first, as
`encoding/hex` renders `md5.Sum`'s byte order. -/
def wordHex (w : Nat) : String :=
  byteHex (w % 256) ++ byteHex (w / 256 % 256) ++ byteHex (w / 65536 % 256)
    ++ byteHex (w / 16777216 % 256)

/-- Model of `fileMD5` (Go lines 259-271): the MD5 digest of the file's byte
contents, hex-encoded. The padded message is a multiple of 64 bytes long, so
`splitFile _ 64` cuts it into exactly the 512-bit blocks MD5 consumes.
File-open errors are outside the model: the function receives the contents. -/
def fileMD5 (content : Bytes) : String :=
  let blocks := splitFile (md5Pad content) 64
  let st := blocks.foldl (fun st b => md5Block st (toWordsLE b))
    (0x67452301, 0xefcdab89, 0x98badcfe, 0x10325476)
  wordHex st.1 ++ wordHex st.2.1 ++ wordHex st.2.2.1 ++ wordHex st.2.2.2

/-- The two ways the final MD5 comparison of `run` (Go lines 101-105) can
print: `verified` is "MD5 校验通过", `mismatch` is "MD5 校验失败". -/
inductive Verdict : Type where
  | verified
  | mismatch
  deriving DecidableEq

/-- Model of `run` (Go lines 52-108). Returns the value `run` returns
(`Except.error` makes `main` call `logrus.Fatal`, i.e. a non-zero exit;
`Except.ok v` is a nil return with final verdict `v`) together with the
content of the `<file>.restored` output file, `none` when it was never
created. Note lines 99-107: the restored digest's error is discarded and
`run` returns nil on both verdicts, and the `.restored` file is never
removed. -/
def run (S : Bytes) (F : Nat) (up : Nat → Bytes → Except String String)
    (get : String → Except String (Option Bytes)) :
    Except String Verdict × Option Bytes :=
  let originMD5 := fileMD5 S
  let frags := splitFile S F
  match uploadLoop up 0 [] frags with
  | (_, some ie) =>
    (Except.error ("上传分片 " ++ toString (ie.1 + 1) ++ " 失败: " ++ ie.2), none)
  | (roots, none) =>
    match downloadAndMerge get roots with
    | (written, some e) => (Except.error e, some written)
    | (merged, none) =>
      if originMD5 = fileMD5 merged then (Except.ok Verdict.verified, some merged)
      else (Except.ok Verdict.mismatch, some merged)

/-- Test double: an uploader that always succeeds, returning the fragment
index as the root string. -/
def upOk : Nat → Bytes → Except String String := fun i _ => Except.ok (toString i)

/-- Test double: an uploader that succeeds on fragment 0 and fails on every
later fragment. -/
def upFailAfterFirst : Nat → Bytes → Except String String :=
  fun i _ => if i = 0 then Except.ok "r0" else Except.error "boom"

/-- Test double: a store whose download always succeeds but delivers the
corrupted byte block `[9]` whatever the root. -/
def getCorrupt : String → Except String (Option Bytes) := fun _ => Except.ok (some [9])

/-- Test double: the intended read-back results for `getFlaky` — root "b"'s
temporary file cannot be read back. -/
def flakyData : String → Option Bytes :=
  fun r => if r = "a" then some [10] else if r = "b" then none else some [30]

/-- Test double: a store whose download commands all succeed, but reading the
temporary file back fails for root "b". -/
def getFlaky : String → Except String (Option Bytes) := fun r => Except.ok (flakyData r)

/-- Test double: a faithful store for the fragments of `[1,2,3,4,5]` split at
chunk size 2. -/
def storeW : String → Bytes :=
  fun r => if r = "a" then [1, 2] else if r = "b" then [3, 4] else [5]

/-- Test double: a faithful store for the fragments of `[9,8,7]` split at
chunk size 2. -/
def storeX : String → Bytes := fun r => if r = "x" then [9, 8] else [7]

/-- Decidable equality for `Except`, so that concrete pipeline outcomes can be
checked by evaluation. -/
instance exceptDecidableEq {e a : Type} [DecidableEq e] [DecidableEq a] :
    DecidableEq (Except e a) := fun x y =>
  match x, y with
  | Except.ok v, Except.ok w =>
    if h : v = w then isTrue (by rw [h]) else isFalse (fun hh => h (by injection hh))
  | Except.error v, Except.error w =>
    if h : v = w then isTrue (by rw [h]) else isFalse (fun hh => h (by injection hh))
  | Except.ok _, Except.error _ => isFalse (fun hh => Except.noConfusion hh)
  | Except.error _, Except.ok _ => isFalse (fun hh => Except.noConfusion hh)

theorem splitFileGo_fuel :
    ∀ (fuel₁ fuel₂ : Nat) (S : Bytes) (F : Nat),
      S.length < fuel₁ → S.length < fuel₂ →
      splitFileGo fuel₁ S F = splitFileGo fuel₂ S F := by
  intro fuel₁
  induction fuel₁ with
  | zero =>
    intro fuel₂ S F h1 h2
    omega
  | succ f₁ ihf =>
    intro fuel₂ S F h1 h2
    cases fuel₂ with
    | zero => omega
    | succ f₂ =>
      simp only [splitFileGo]
      by_cases h : S = [] ∨ F = 0
      · rw [if_pos h, if_pos h]
      · rw [if_neg h, if_neg h]
        have h2' := not_or.mp h
        have hlen : S.length ≠ 0 := fun hh => h2'.1 (List.length_eq_zero.mp hh)
        have hFpos : 0 < F := Nat.pos_of_ne_zero h2'.2
        congr 1
        apply ihf
        · simp only [List.length_drop]
          omega
        · simp only [List.length_drop]
          omega

theorem splitFile_nil_or_zero (S : Bytes) (F : Nat) (h : S = [] ∨ F = 0) :
    splitFile S F = [] := by
  unfold splitFile
  simp only [splitFileGo, if_pos h]

theorem splitFile_nil (F : Nat) : splitFile [] F = [] :=
  splitFile_nil_or_zero [] F (Or.inl rfl)

theorem splitFile_cons (S : Bytes) (F : Nat) (hS : S ≠ []) (hF : F ≠ 0) :
    splitFile S F = S.take F :: splitFile (S.drop F) F := by
  have hn : ¬(S = [] ∨ F = 0) := not_or.mpr ⟨hS, hF⟩
  have hpos : 0 < S.length := List.length_pos.mpr hS
  have hFpos : 0 < F := Nat.pos_of_ne_zero hF
  have key : splitFileGo (S.length + 1) S F
      = S.take F :: splitFileGo S.length (S.drop F) F := by
    simp only [splitFileGo, if_neg hn]
  unfold splitFile
  rw [key]
  congr 1
  apply splitFileGo_fuel
  · simp only [List.length_drop]
    omega
  · simp only [List.length_drop]
    omega

theorem splitFile_eq_nil (F : Nat) (hF : 0 < F) (S : Bytes) :
    splitFile S F = [] ↔ S = [] := by
  constructor
  · intro h
    by_contra hS
    rw [splitFile_cons S F hS hF.ne'] at h
    exact List.cons_ne_nil _ _ h
  · intro h
    subst h
    exact splitFile_nil F

theorem splitFile_flatten (F : Nat) (hF : 0 < F) (S : Bytes) :
    (splitFile S F).flatten = S := by
  by_cases hS : S = []
  · subst hS
    rw [splitFile_nil]
    rfl
  · rw [splitFile_cons S F hS hF.ne', List.flatten_cons,
      splitFile_flatten F hF (S.drop F), List.take_append_drop]
termination_by S.length
decreasing_by
  simp only [List.length_drop]
  have hlen : S.length ≠ 0 := fun hh => hS (List.length_eq_zero.mp hh)
  omega

theorem splitFile_length (F : Nat) (hF : 0 < F) (S : Bytes) :
    (splitFile S F).length = (S.length + F - 1) / F := by
  by_cases hS : S = []
  · subst hS
    rw [splitFile_nil]
    have h0 : (F - 1) / F = 0 := Nat.div_eq_of_lt (by omega)
    simp [h0]
  · rw [splitFile_cons S F hS hF.ne']
    have hpos : 0 < S.length := List.length_pos.mpr hS
    have ih := splitFile_length F hF (S.drop F)
    rw [List.length_drop] at ih
    simp only [List.length_cons, ih]
    rcases Nat.le_total S.length F with h | h
    · have h0 : S.length - F = 0 := by omega
      rw [h0]
      have e1 : S.length + F - 1 = S.length - 1 + F := by omega
      rw [e1, Nat.add_div_right _ hF]
      have e2 : (S.length - 1) / F = 0 := Nat.div_eq_of_lt (by omega)
      have e3 : (0 + F - 1) / F = 0 := Nat.div_eq_of_lt (by omega)
      omega
    · have e2 : S.length - F + F - 1 = S.length - 1 := by omega
      have e1 : S.length + F - 1 = S.length - 1 + F := by omega
      rw [e2, e1, Nat.add_div_right _ hF]
termination_by S.length
decreasing_by
  simp only [List.length_drop]
  have hlen : S.length ≠ 0 := fun hh => hS (List.length_eq_zero.mp hh)
  omega

theorem splitFile_mem_ne_nil (S : Bytes) (F : Nat) (l : Bytes)
    (hl : l ∈ splitFile S F) : l ≠ [] := by
  by_cases h : S = [] ∨ F = 0
  · rw [splitFile_nil_or_zero S F h] at hl
    simp at hl
  · push_neg at h
    rw [splitFile_cons S F h.1 h.2] at hl
    rcases List.mem_cons.mp hl with rfl | hl
    · intro hnil
      have hlen := congrArg List.length hnil
      rw [List.length_take] at hlen
      have hpos : 0 < S.length := List.length_pos.mpr h.1
      have hFpos : 0 < F := Nat.pos_of_ne_zero h.2
      simp only [List.length_nil] at hlen
      omega
    · exact splitFile_mem_ne_nil (S.drop F) F l hl
termination_by S.length
decreasing_by
  simp only [List.length_drop]
  have h2 : S ≠ [] ∧ F ≠ 0 := not_or.mp h
  have hlen : S.length ≠ 0 := fun hh => h2.1 (List.length_eq_zero.mp hh)
  have hFpos : 0 < F := Nat.pos_of_ne_zero h2.2
  omega

theorem splitFile_dropLast (F : Nat) (hF : 0 < F) (S : Bytes) (l : Bytes)
    (hl : l ∈ (splitFile S F).dropLast) : l.length = F := by
  by_cases hS : S = []
  · subst hS
    rw [splitFile_nil] at hl
    simp at hl
  · rw [splitFile_cons S F hS hF.ne'] at hl
    by_cases hD : S.drop F = []
    · rw [(splitFile_eq_nil F hF _).mpr hD] at hl
      simp at hl
    · have htail : splitFile (S.drop F) F ≠ [] :=
        fun hh => hD ((splitFile_eq_nil F hF _).mp hh)
      rw [List.dropLast_cons_of_ne_nil htail] at hl
      rcases List.mem_cons.mp hl with rfl | hl
      · rw [List.length_take]
        have hle : F ≤ S.length := by
          by_contra hc
          push_neg at hc
          exact hD (List.drop_eq_nil_iff.mpr (le_of_lt hc))
        omega
      · exact splitFile_dropLast F hF (S.drop F) l hl
termination_by S.length
decreasing_by
  simp only [List.length_drop]
  have hlen : S.length ≠ 0 := fun hh => hS (List.length_eq_zero.mp hh)
  omega

theorem splitLoop_append_good (pre : List ReadStep) :
    ∀ (tl : List ReadStep) (acc : List Bytes),
      (∀ r ∈ pre, r.data ≠ [] ∧ r.rerr = ReadErr.ok) →
      splitLoop (pre ++ tl) acc = splitLoop tl (acc ++ pre.map ReadStep.data) := by
  induction pre with
  | nil =>
    intro tl acc _
    simp
  | cons r pre' ih =>
    intro tl acc h
    have hr := h r (by simp)
    have hlen : ¬r.data.length = 0 := fun hh => hr.1 (List.length_eq_zero.mp hh)
    simp only [List.cons_append, splitLoop, if_neg hlen, hr.2]
    calc splitLoop (pre' ++ tl) (acc ++ [r.data])
        = splitLoop tl ((acc ++ [r.data]) ++ pre'.map ReadStep.data) :=
          ih tl (acc ++ [r.data]) (fun x hx => h x (by simp [hx]))
      _ = splitLoop tl (acc ++ (r :: pre').map ReadStep.data) := by simp

theorem splitLoop_mem_ne_nil :
    ∀ (reads : List ReadStep) (acc : List Bytes),
      (∀ a ∈ acc, a ≠ []) → ∀ l ∈ (splitLoop reads acc).1, l ≠ [] := by
  intro reads
  induction reads with
  | nil =>
    intro acc h
    simpa [splitLoop] using h
  | cons r rest ih =>
    intro acc h l hl
    by_cases h0 : r.data.length = 0
    · simp only [splitLoop, if_pos h0] at hl
      rcases hr : r.rerr with _ | _ | m <;> rw [hr] at hl <;> exact h l hl
    · have hdata : r.data ≠ [] := fun hh => h0 (by simp [hh])
      have hacc : ∀ a ∈ acc ++ [r.data], a ≠ [] := by
        intro a ha
        rcases List.mem_append.mp ha with ha | ha
        · exact h a ha
        · rw [List.mem_singleton] at ha
          subst ha
          exact hdata
      simp only [splitLoop, if_neg h0] at hl
      rcases hr : r.rerr with _ | _ | m <;> rw [hr] at hl
      · exact ih (acc ++ [r.data]) hacc l hl
      · exact hacc l hl
      · exact ih (acc ++ [r.data]) hacc l hl

theorem splitLoop_canonReads (S : Bytes) (F : Nat) (hF : 0 < F) :
    splitLoop (canonReads S F) [] = (splitFile S F, none) := by
  have hmap : ∀ L : List Bytes,
      (L.map fun d => ReadStep.mk d ReadErr.ok).map ReadStep.data = L := by
    intro L
    induction L with
    | nil => rfl
    | cons a t iht => simp [iht]
  unfold canonReads
  rw [splitLoop_append_good _ _ [] ?good]
  case good =>
    intro r hr
    rw [List.mem_map] at hr
    obtain ⟨d, hd, rfl⟩ := hr
    exact ⟨splitFile_mem_ne_nil S F d hd, rfl⟩
  simp [splitLoop, hmap]

theorem downloadLoop_ok (get : String → Except String (Option Bytes))
    (f : String → Option Bytes) :
    ∀ (roots : List String) (out : Bytes),
      (∀ r ∈ roots, get r = Except.ok (f r)) →
      downloadLoop get roots out
        = (out ++ (roots.map fun r => (f r).getD []).flatten, none) := by
  intro roots
  induction roots with
  | nil =>
    intro out _
    simp [downloadLoop]
  | cons root rest ih =>
    intro out h
    have h0 : get root = Except.ok (f root) := h root (by simp)
    have hrest : ∀ r ∈ rest, get r = Except.ok (f r) := fun r hr => h r (by simp [hr])
    simp only [downloadLoop, h0]
    rw [ih (out ++ (f root).getD []) hrest]
    simp

theorem downloadAndMerge_split (S : Bytes) (F : Nat) (hF : 0 < F)
    (roots : List String) (store : String → Bytes)
    (hroots : roots.map store = splitFile S F) :
    downloadAndMerge (fun r => Except.ok (some (store r))) roots = (S, none) := by
  unfold downloadAndMerge
  rw [downloadLoop_ok (fun r => Except.ok (some (store r))) (fun r => some (store r))
      roots [] (fun r _ => rfl)]
  simp only [Option.getD_some, List.nil_append]
  rw [show (roots.map fun r => store r) = roots.map store from rfl, hroots,
    splitFile_flatten F hF S]

theorem uploadLoop_ok (up : Nat → Bytes → Except String String) :
    ∀ (frags : List Bytes) (k : Nat) (acc roots : List String),
      uploadLoop up k acc frags = (roots, none) →
      ∃ produced, roots = acc ++ produced ∧ produced.length = frags.length ∧
        ∀ i, i < frags.length →
          up (k + i) (frags.getD i []) = Except.ok (produced.getD i "") := by
  intro frags
  induction frags with
  | nil =>
    intro k acc roots h
    simp only [uploadLoop, Prod.mk.injEq] at h
    refine ⟨[], by simp [h.1.symm], by simp, ?_⟩
    intro i hi
    simp at hi
  | cons frag rest ih =>
    intro k acc roots h
    simp only [uploadLoop] at h
    rcases hu : up k frag with e | r
    · rw [hu] at h
      simp at h
    · rw [hu] at h
      obtain ⟨produced, hp1, hp2, hp3⟩ := ih (k + 1) (acc ++ [r]) roots h
      refine ⟨r :: produced, ?_, ?_, ?_⟩
      · rw [hp1]
        simp
      · simp [hp2]
      · intro i hi
        cases i with
        | zero => simpa using hu
        | succ j =>
          have hj : j < rest.length := by simpa using hi
          have hh := hp3 j hj
          rw [show k + 1 + j = k + (j + 1) from by omega] at hh
          simpa [List.getD] using hh

theorem uploadLoop_fail (up : Nat → Bytes → Except String String) (e : String) :
    ∀ (pre : List Bytes) (bad : Bytes) (rest : List Bytes) (k : Nat)
      (acc rs : List String),
      rs.length = pre.length →
      (∀ i, i < pre.length → up (k + i) (pre.getD i []) = Except.ok (rs.getD i "")) →
      up (k + pre.length) bad = Except.error e →
      uploadLoop up k acc (pre ++ bad :: rest) = (acc ++ rs, some (k + pre.length, e)) := by
  intro pre
  induction pre with
  | nil =>
    intro bad rest k acc rs hlen hok hbad
    have hrs : rs = [] := List.length_eq_zero.mp hlen
    subst hrs
    simp only [List.nil_append, uploadLoop]
    rw [show k + List.length ([] : List Bytes) = k from by simp] at hbad
    rw [hbad]
    simp
  | cons p pre' ih =>
    intro bad rest k acc rs hlen hok hbad
    rcases rs with _ | ⟨r, rs'⟩
    · simp at hlen
    · have h0 : up k p = Except.ok r := by simpa using hok 0 (by simp)
      simp only [List.cons_append, uploadLoop, h0]
      have hok' : ∀ i, i < pre'.length →
          up (k + 1 + i) (pre'.getD i []) = Except.ok (rs'.getD i "") := by
        intro i hi
        have hh := hok (i + 1) (by simp only [List.length_cons]; omega)
        rw [show k + (i + 1) = k + 1 + i from by omega] at hh
        simpa [List.getD] using hh
      have hbad' : up (k + 1 + pre'.length) bad = Except.error e := by
        rw [show k + 1 + pre'.length = k + (p :: pre').length from by
          simp only [List.length_cons]; omega]
        exact hbad
      calc uploadLoop up (k + 1) (acc ++ [r]) (pre' ++ bad :: rest)
          = ((acc ++ [r]) ++ rs', some (k + 1 + pre'.length, e)) :=
            ih bad rest (k + 1) (acc ++ [r]) rs' (by simpa using hlen) hok' hbad'
        _ = (acc ++ r :: rs', some (k + (p :: pre').length, e)) := by
            simp only [List.length_cons]
            rw [show k + 1 + pre'.length = k + (pre'.length + 1) from by omega]
            simp

theorem splitFile_getLast (F : Nat) (hF : 0 < F) (S : Bytes) (l : Bytes)
    (hl : (splitFile S F).getLast? = some l) :
    l.length = if S.length % F = 0 then F else S.length % F := by
  by_cases hS : S = []
  · subst hS
    rw [splitFile_nil] at hl
    simp at hl
  · rw [splitFile_cons S F hS hF.ne'] at hl
    have hpos : 0 < S.length := List.length_pos.mpr hS
    by_cases hD : S.drop F = []
    · rw [(splitFile_eq_nil F hF _).mpr hD, List.getLast?_singleton] at hl
      injection hl with hl
      subst hl
      have hle : S.length ≤ F := List.drop_eq_nil_iff.mp hD
      rw [List.take_of_length_le hle]
      by_cases hmod : S.length % F = 0
      · rw [if_pos hmod]
        have hdvd : F ∣ S.length := Nat.dvd_of_mod_eq_zero hmod
        exact Nat.le_antisymm hle (Nat.le_of_dvd hpos hdvd)
      · rw [if_neg hmod]
        have hne : S.length ≠ F := fun he => hmod (by rw [he, Nat.mod_self])
        exact (Nat.mod_eq_of_lt (lt_of_le_of_ne hle hne)).symm
    · have htail : splitFile (S.drop F) F ≠ [] :=
        fun hh => hD ((splitFile_eq_nil F hF _).mp hh)
      rcases hT : splitFile (S.drop F) F with _ | ⟨b, t⟩
      · exact absurd hT htail
      · rw [hT, List.getLast?_cons_cons] at hl
        have ih := splitFile_getLast F hF (S.drop F) l (by rw [hT]; exact hl)
        rw [List.length_drop] at ih
        have hge : F ≤ S.length := by
          by_contra hc
          push_neg at hc
          exact hD (List.drop_eq_nil_iff.mpr (le_of_lt hc))
        rw [Nat.mod_eq_sub_mod hge]
        exact ih
termination_by S.length
decreasing_by
  simp only [List.length_drop]
  have hlen : S.length ≠ 0 := fun hh => hS (List.length_eq_zero.mp hh)
  omega

/-- C1: for every source byte sequence `S` and chunk size `F > 0`,
concatenating the fragments of `splitFile S F` in index order the way
`downloadAndMerge` does — against a store that returns each fragment's bytes
unchanged (`roots.map store` is exactly the fragment list) — reproduces `S`
exactly: no byte is dropped, duplicated or reordered, and no error is
reported. -/
theorem claim_C1_split_merge_roundtrip (S : Bytes) (F : Nat) (hF : 0 < F)
    (roots : List String) (store : String → Bytes)
    (hstore : roots.map store = splitFile S F) :
    downloadAndMerge (fun r => Except.ok (some (store r))) roots = (S, none) :=
  downloadAndMerge_split S F hF roots store hstore

/-- Witness for C1 at `S = [1,2,3,4,5]`, `F = 2`, roots `a, b, c`. -/
theorem claim_C1_split_merge_roundtrip_witness :
    downloadAndMerge (fun r => Except.ok (some (storeW r))) ["a", "b", "c"]
      = ([1, 2, 3, 4, 5], none) :=
  claim_C1_split_merge_roundtrip [1, 2, 3, 4, 5] 2 (by decide) ["a", "b", "c"]
    storeW (by decide)

/-- C2: for every source `S` and chunk size `F > 0`, `splitFile` produces
exactly `ceil (len S / F)` fragments; every fragment except possibly the last
has length exactly `F`; the last has length `len S mod F` (or `F` when `F`
divides `len S`); an empty source yields no fragments. -/
theorem claim_C2_fragment_count_and_sizes (S : Bytes) (F : Nat) (hF : 0 < F) :
    (splitFile S F).length = (S.length + F - 1) / F ∧
    (∀ l ∈ (splitFile S F).dropLast, l.length = F) ∧
    (∀ l : Bytes, (splitFile S F).getLast? = some l →
      l.length = if S.length % F = 0 then F else S.length % F) ∧
    splitFile [] F = [] :=
  ⟨splitFile_length F hF S,
   fun l hl => splitFile_dropLast F hF S l hl,
   fun l hl => splitFile_getLast F hF S l hl,
   splitFile_nil F⟩

/-- Witness for C2 at `S = [0,1,2,3,4]`, `F = 2`: three fragments, the first
two of length 2, the last of length `5 mod 2 = 1`. -/
theorem claim_C2_fragment_count_and_sizes_witness :
    0 < 2 ∧
    (splitFile [0, 1, 2, 3, 4] 2).length = (([0, 1, 2, 3, 4] : Bytes).length + 2 - 1) / 2 ∧
    ([0, 1] : Bytes).length = 2 ∧
    ([4] : Bytes).length
      = (if ([0, 1, 2, 3, 4] : Bytes).length % 2 = 0 then 2
         else ([0, 1, 2, 3, 4] : Bytes).length % 2) :=
  ⟨by decide,
   (claim_C2_fragment_count_and_sizes [0, 1, 2, 3, 4] 2 (by decide)).1,
   (claim_C2_fragment_count_and_sizes [0, 1, 2, 3, 4] 2 (by decide)).2.1 [0, 1] (by decide),
   (claim_C2_fragment_count_and_sizes [0, 1, 2, 3, 4] 2 (by decide)).2.2.1 [4] (by decide)⟩

/-- C3: `fileMD5` is a pure function of the byte contents (hence
deterministic), and the digest of a file reassembled by `downloadAndMerge`
from a faithful store equals the digest of the original source. -/
theorem claim_C3_digest_roundtrip (S : Bytes) (F : Nat) (hF : 0 < F)
    (roots : List String) (store : String → Bytes) (M : Bytes)
    (hstore : roots.map store = splitFile S F)
    (hmerge : downloadAndMerge (fun r => Except.ok (some (store r))) roots = (M, none)) :
    fileMD5 M = fileMD5 S := by
  have hS := downloadAndMerge_split S F hF roots store hstore
  rw [hS] at hmerge
  have hM : S = M := congrArg Prod.fst hmerge
  rw [← hM]

/-- Witness for C3 at `S = [9,8,7]`, `F = 2`, roots `x, y`. -/
theorem claim_C3_digest_roundtrip_witness :
    0 < 2 ∧ fileMD5 [9, 8, 7] = fileMD5 [9, 8, 7] :=
  ⟨by decide,
   claim_C3_digest_roundtrip [9, 8, 7] 2 (by decide) ["x", "y"] storeX [9, 8, 7]
     (by decide) (by decide)⟩

/-- C4: if the upload of fragment `i` fails, the run fails immediately: the
upload loop stops with the ContentIDs of fragments `0..i-1` still recorded in
the roots list, the returned pair carries the failing fragment's index (and
`run` formats the message with the 1-based index `i+1`), and the outcome is
the same whatever fragments follow — no fragment after `i` is uploaded. -/
theorem claim_C4_upload_failure (up : Nat → Bytes → Except String String)
    (pre : List Bytes) (bad : Bytes) (e : String) (rs : List String)
    (hlen : rs.length = pre.length)
    (hok : ∀ i, i < pre.length → up i (pre.getD i []) = Except.ok (rs.getD i ""))
    (hbad : up pre.length bad = Except.error e) :
    (∀ rest : List Bytes,
      uploadLoop up 0 [] (pre ++ bad :: rest) = (rs, some (pre.length, e))) ∧
    (∀ (S : Bytes) (F : Nat) (get : String → Except String (Option Bytes))
      (rest : List Bytes),
      splitFile S F = pre ++ bad :: rest →
      run S F up get
        = (Except.error ("上传分片 " ++ toString (pre.length + 1) ++ " 失败: " ++ e),
           none)) := by
  have key : ∀ rest : List Bytes,
      uploadLoop up 0 [] (pre ++ bad :: rest) = (rs, some (pre.length, e)) := by
    intro rest
    have hok0 : ∀ i, i < pre.length →
        up (0 + i) (pre.getD i []) = Except.ok (rs.getD i "") := by
      intro i hi
      rw [Nat.zero_add]
      exact hok i hi
    have hbad0 : up (0 + pre.length) bad = Except.error e := by
      rw [Nat.zero_add]
      exact hbad
    have hh := uploadLoop_fail up e pre bad rest 0 [] rs hlen hok0 hbad0
    simpa using hh
  refine ⟨key, ?_⟩
  intro S F get rest hsplit
  simp only [run, hsplit, key rest]

/-- Witness for C4: three fragments, the upload of fragment 1 (0-based)
fails; fragment 0's root stays recorded, fragment 2 is never uploaded, and
`run` reports the 1-based index 2. -/
theorem claim_C4_upload_failure_witness :
    uploadLoop upFailAfterFirst 0 [] [[1, 2], [3, 4], [5, 6]]
      = (["r0"], some (1, "boom")) ∧
    run [1, 2, 3, 4, 5, 6] 2 upFailAfterFirst getCorrupt
      = (Except.error ("上传分片 " ++ toString (1 + 1) ++ " 失败: " ++ "boom"),
         none) := by
  have h := claim_C4_upload_failure upFailAfterFirst [[1, 2]] [3, 4] "boom" ["r0"]
    (by decide)
    (by
      intro i hi
      have h0 : i = 0 := by
        simp only [List.length_cons, List.length_nil] at hi
        omega
      subst h0
      decide)
    (by decide)
  exact ⟨by simpa using h.1 [[5, 6]],
    h.2 [1, 2, 3, 4, 5, 6] 2 getCorrupt [[5, 6]] (by decide)⟩

/-- C5: whenever the upload phase completes (the guard under which `run`
calls `downloadAndMerge`), the manifest holds exactly one ContentID per
fragment: the roots list has the same length as the fragment list, and the
root at position `i` is the one returned by the upload of fragment `i`. -/
theorem claim_C5_manifest_complete (S : Bytes) (F : Nat) (hF : 0 < F)
    (up : Nat → Bytes → Except String String) (roots : List String)
    (hup : uploadLoop up 0 [] (splitFile S F) = (roots, none)) :
    roots.length = (splitFile S F).length ∧
    ∀ i, i < (splitFile S F).length →
      up i ((splitFile S F).getD i []) = Except.ok (roots.getD i "") := by
  obtain ⟨produced, hp1, hp2, hp3⟩ := uploadLoop_ok up (splitFile S F) 0 [] roots hup
  rw [List.nil_append] at hp1
  subst hp1
  refine ⟨hp2, ?_⟩
  intro i hi
  have hh := hp3 i hi
  rwa [Nat.zero_add] at hh

/-- Witness for C5 at `S = [1,2,3]`, `F = 1` with the always-succeeding
uploader. -/
theorem claim_C5_manifest_complete_witness :
    (["0", "1", "2"] : List String).length = (splitFile [1, 2, 3] 1).length ∧
    upOk 1 ((splitFile [1, 2, 3] 1).getD 1 [])
      = Except.ok ((["0", "1", "2"] : List String).getD 1 "") := by
  have h := claim_C5_manifest_complete [1, 2, 3] 1 (by decide) upOk ["0", "1", "2"]
    (by decide)
  exact ⟨h.1, h.2 1 (by decide)⟩

/-- C6: a source read that fails with a non-EOF error (a zero-byte read with
a non-EOF error value) makes `splitFile` return that error at once — whatever
reads would have come later — with no fragment written for the failed read,
while the fragments written for the earlier reads are still present. -/
theorem claim_C6_read_error_aborts (pre : List ReadStep) (m : String)
    (hpre : ∀ r ∈ pre, r.data ≠ [] ∧ r.rerr = ReadErr.ok) (rest : List ReadStep) :
    splitLoop (pre ++ ReadStep.mk [] (ReadErr.fail m) :: rest) []
      = (pre.map ReadStep.data, some m) := by
  rw [splitLoop_append_good pre _ [] hpre]
  simp [splitLoop]

/-- Witness for C6: one good read, then a failing read, then a read that is
never reached. -/
theorem claim_C6_read_error_aborts_witness :
    splitLoop [ReadStep.mk [1, 2] ReadErr.ok,
               ReadStep.mk [] (ReadErr.fail "disk error"),
               ReadStep.mk [3] ReadErr.ok] []
      = ([[1, 2]], some "disk error") := by
  have h := claim_C6_read_error_aborts [ReadStep.mk [1, 2] ReadErr.ok] "disk error"
    (by decide) [ReadStep.mk [3] ReadErr.ok]
  simpa using h

/-- C7: `splitFile` never emits a fragment of length 0 — neither in the pure
denotation (every fragment of `splitFile S F` is non-empty, for any `F`) nor
at the read level (every fragment `splitLoop` writes comes from a read that
delivered at least one byte; a zero-length read terminates chunking without
producing a fragment). -/
theorem claim_C7_no_empty_fragment :
    (∀ (S : Bytes) (F : Nat), ∀ l ∈ splitFile S F, l ≠ []) ∧
    (∀ reads : List ReadStep, ∀ l ∈ (splitLoop reads []).1, l ≠ []) :=
  ⟨fun S F l hl => splitFile_mem_ne_nil S F l hl,
   fun reads l hl => splitLoop_mem_ne_nil reads [] (by simp) l hl⟩

/-- Witness for C7: the fragment `[1,2]` of `splitFile [1,2,3] 2` and the
fragment `[7]` written by a run of the read loop are non-empty. -/
theorem claim_C7_no_empty_fragment_witness :
    ([1, 2] : Bytes) ≠ [] ∧ ([7] : Bytes) ≠ [] :=
  ⟨claim_C7_no_empty_fragment.1 [1, 2, 3] 2 [1, 2] (by decide),
   claim_C7_no_empty_fragment.2 [ReadStep.mk [7] ReadErr.eof] [7] (by decide)⟩

/-- Counterexample to C8 as stated: with source `[0]`, chunk size 1 and a
store that corrupts the fragment to `[9]`, the digests differ and `run`
reaches the mismatch verdict — yet the `.restored` output file stays on disk
holding the corrupt bytes `[9] ≠ [0]` (the Go code never removes it). -/
theorem claim_C8_counterexample :
    (run [0] 1 upOk getCorrupt).1 = Except.ok Verdict.mismatch ∧
    (run [0] 1 upOk getCorrupt).2 = some [9] ∧ ([9] : Bytes) ≠ [0] := by
  decide

/-- C8 (amended): when the recomputed digest of the reassembled file differs
from the original digest, the caller is informed the file differs (the
mismatch verdict is printed), but the `.restored` output file is left on disk
holding the corrupt merged bytes — it is not removed. -/
theorem claim_C8_mismatch_keeps_restored_file (S : Bytes) (F : Nat)
    (up : Nat → Bytes → Except String String)
    (get : String → Except String (Option Bytes)) (roots : List String) (M : Bytes)
    (hup : uploadLoop up 0 [] (splitFile S F) = (roots, none))
    (hdl : downloadAndMerge get roots = (M, none))
    (hmd : fileMD5 S ≠ fileMD5 M) :
    run S F up get = (Except.ok Verdict.mismatch, some M) := by
  simp only [run, hup, hdl]
  rw [if_neg hmd]

/-- Witness for the amended C8 at source `[2]`, chunk size 1, store
corrupting to `[9]`. -/
theorem claim_C8_mismatch_keeps_restored_file_witness :
    run [2] 1 upOk getCorrupt = (Except.ok Verdict.mismatch, some [9]) :=
  claim_C8_mismatch_keeps_restored_file [2] 1 upOk getCorrupt ["0"] [9]
    (by decide) (by decide) (by decide)

/-- C9 evaluation at the failing input: with source `[5]`, chunk size 1 and a
store that corrupts the fragment to `[9]`, the final digest comparison fails
(the run ends in the FAILED verdict), yet `run` returns `Except.ok` — the Go
`run` returns nil, so `main` never calls `logrus.Fatal` and the process exits
with code 0, contradicting the claimed non-zero exit. -/
theorem claim_C9_mismatch_exit_zero :
    (run [5] 1 upOk getCorrupt).1 = Except.ok Verdict.mismatch := by
  decide

/-- C10: in `downloadAndMerge`, the error from reading back each downloaded
temporary fragment file is discarded: whenever every download command
succeeds, the function returns success, and the output is the concatenation
of the read-back results where a failed read-back (`none`) contributes zero
bytes — the restored file is silently truncated while `downloadAndMerge`
still reports no error. -/
theorem claim_C10_readback_error_discarded
    (get : String → Except String (Option Bytes)) (f : String → Option Bytes)
    (roots : List String)
    (hget : ∀ r ∈ roots, get r = Except.ok (f r)) :
    downloadAndMerge get roots
      = ((roots.map fun r => (f r).getD []).flatten, none) := by
  unfold downloadAndMerge
  rw [downloadLoop_ok get f roots [] hget]
  simp

/-- Witness for C10: three downloads succeed, the read-back of root `b`
fails; its bytes are missing from the output and no error is reported. -/
theorem claim_C10_readback_error_discarded_witness :
    downloadAndMerge getFlaky ["a", "b", "c"] = ([10, 30], none) := by
  have h := claim_C10_readback_error_discarded getFlaky flakyData ["a", "b", "c"]
    (by decide)
  simpa using h
